import Mathlib

/-!
Shallow embedding of the parallel ranged file copy in `src/main.rs`.

Files are modelled as lists of bytes (`List Nat`); the positional
`read_at` / `write_at` calls are pure list operations; each worker's
`loop` is a structurally recursive function on a fuel argument that is
initialised to the worker's remaining byte distance `endOff - offset`.
Every iteration that recurses advances the offset by at least one byte,
so the fuel never runs out before the loop's own exit condition
(`bytes_to_read == 0`) fires; the fuel-zero branch returns exactly what
the loop returns when `bytes_to_read == 0`, so the embedding computes the
same results as the source loop while staying executable by the kernel.

Worker threads write to pairwise disjoint byte ranges of the shared
target handle, so the concurrent execution is modelled as the sequential
composition of the workers in index order.  An I/O error in a worker's
`read_at` or `write_at` makes the `unwrap` panic and kills just that
thread; this is modelled by two fault oracles telling, per worker index
and per offset, whether that call fails, together with a `panicked` flag
in the worker's result.  The `bytes_to_read` computation casts through
`i64` in the source; on the reachable states (cursor never exceeds the
range end, which the loop maintains) it equals the truncated natural
subtraction used here.
-/

namespace Cp

/-- Positional read (`FileExt::read_at`, line 132): up to `len` bytes of
`file` starting at `offset`; short or empty near end of file. -/
def readAt (file : List Nat) (offset len : Nat) : List Nat :=
  (file.drop offset).take len

/-- Positional write (`FileExt::write_at`, line 140): overwrite `file` at
`offset` with `data`, zero-filling any gap past the current end of file. -/
def writeAt (file : List Nat) (offset : Nat) (data : List Nat) : List Nat :=
  file.take offset ++ List.replicate (offset - file.length) 0 ++ data
    ++ file.drop (offset + data.length)

/-- Integer division `source_file_len.checked_div(thread_count)` of
line 101 (the `none` case of `checked_div`, i.e. the panic of the
`unwrap`, is handled in `cpE` below). -/
def totalBytesPerThread (sourceFileLen threadCount : Nat) : Nat :=
  sourceFileLen / threadCount

/-- Clamped buffer size `buffer_size.min(total_bytes_per_thread)` of
line 102, computed once before any worker is spawned. -/
def effectiveBufferSize (bufferSize sourceFileLen threadCount : Nat) : Nat :=
  min bufferSize (totalBytesPerThread sourceFileLen threadCount)

/-- Worker start offset `i * total_bytes_per_thread` (line 115). -/
def startOffset (sourceFileLen threadCount i : Nat) : Nat :=
  i * totalBytesPerThread sourceFileLen threadCount

/-- The `last_byte_index_to_read` of worker `i` (lines 116-120). -/
def lastByteIndexToRead (sourceFileLen threadCount i : Nat) : Nat :=
  if i = threadCount - 1 then sourceFileLen
  else (i + 1) * totalBytesPerThread sourceFileLen threadCount

/-- The ordered per-worker byte ranges handed to the spawned workers by
the loop of lines 108-151. -/
def ranges (sourceFileLen threadCount : Nat) : List (Nat × Nat) :=
  (List.range threadCount).map fun i =>
    (startOffset sourceFileLen threadCount i,
     lastByteIndexToRead sourceFileLen threadCount i)

/-- The `Status` progress event of lines 33-50; the wall-clock timestamp
field is not modelled. -/
structure Status where
  threadIdx : Nat
  bytesWritten : Nat
  offset : Nat
deriving DecidableEq, Repr

/-- Result of one worker thread: final target file contents, the `Status`
events it sent in emission order, the positional reads it attempted as
pairs of offset and requested length, and whether the thread died in an
`unwrap` on an I/O error. -/
structure WorkerResult where
  target : List Nat
  events : List Status
  reads : List (Nat × Nat)
  panicked : Bool
deriving DecidableEq, Repr

/-- One worker's `loop` (lines 122-149), structurally recursive on fuel.
The oracles `rErr` and `wErr` tell whether the `read_at` or `write_at`
at a given offset returns an I/O error, in which case the `unwrap` kills
the thread (`panicked := true`). -/
def workerLoopAux (i : Nat) (src : List Nat) (rErr wErr : Nat → Bool)
    (bufSize endOff : Nat) : Nat → Nat → List Nat → WorkerResult
  | 0, _, tgt => ⟨tgt, [], [], false⟩
  | fuel + 1, offset, tgt =>
    if min bufSize (endOff - offset) = 0 then ⟨tgt, [], [], false⟩
    else if rErr offset then
      ⟨tgt, [], [(offset, min bufSize (endOff - offset))], true⟩
    else if (readAt src offset (min bufSize (endOff - offset))).length = 0 then
      ⟨tgt, [], [(offset, min bufSize (endOff - offset))], false⟩
    else if wErr offset then
      ⟨tgt, [], [(offset, min bufSize (endOff - offset))], true⟩
    else
      let data := readAt src offset (min bufSize (endOff - offset))
      let rest := workerLoopAux i src rErr wErr bufSize endOff fuel
        (offset + data.length) (writeAt tgt offset data)
      ⟨rest.target, ⟨i, data.length, offset⟩ :: rest.events,
       (offset, min bufSize (endOff - offset)) :: rest.reads, rest.panicked⟩

/-- Worker `i` running its whole loop from `offset` with fault oracles. -/
def workerLoopE (i : Nat) (src : List Nat) (rErr wErr : Nat → Bool)
    (tgt : List Nat) (bufSize endOff offset : Nat) : WorkerResult :=
  workerLoopAux i src rErr wErr bufSize endOff (endOff - offset) offset tgt

/-- Fault oracle of a run in which no I/O call fails. -/
def noErr : Nat → Bool := fun _ => false

/-- Worker `i` running its whole loop from `offset`, no I/O errors. -/
def workerLoop (i : Nat) (src tgt : List Nat)
    (bufSize endOff offset : Nat) : WorkerResult :=
  workerLoopE i src noErr noErr tgt bufSize endOff offset

/-- Sequential composition of the workers in index order (sound for the
concurrent run because their write ranges are pairwise disjoint): final
target contents plus the per-worker event lists the channel delivers to
`report_status`.  The `panicked` flags are discarded, mirroring the
ignored `jh.join()` results of lines 156-158. -/
def runWorkers (src : List Nat) (rErr wErr : Nat → Nat → Bool)
    (bufSize : Nat) :
    List (Nat × Nat) → Nat → List Nat → List Nat × List (List Status)
  | [], _, tgt => (tgt, [])
  | r :: rest, i, tgt =>
    let w := workerLoopE i src (rErr i) (wErr i) tgt bufSize r.2 r.1
    let out := runWorkers src rErr wErr bufSize rest (i + 1) w.target
    (out.1, w.events :: out.2)

/-- Observable outcome of `cp`: either the process panicked (carrying the
state of the target file at that moment, `none` when the target was never
created), or it returned `Ok(())` with the final target contents and the
per-worker progress event lists. -/
inductive CpOutcome where
  | panicked (targetFile : Option (List Nat))
  | ok (targetFile : List Nat) (workerEvents : List (List Status))
deriving DecidableEq, Repr

/-- The `cp` function (lines 86-161) with I/O fault oracles for the
workers, assuming the source file opens and reads successfully with
contents `src`.  The source handle is opened first (line 91), then the
target is opened with create plus truncate (lines 93-99), so by the time
`checked_div(thread_count).unwrap()` on line 101 panics for a zero thread
count the target file already exists with empty contents. -/
def cpE (src : List Nat) (rErr wErr : Nat → Nat → Bool)
    (threadCount bufferSize : Nat) : CpOutcome :=
  if threadCount = 0 then CpOutcome.panicked (some [])
  else
    let out := runWorkers src rErr wErr
      (effectiveBufferSize bufferSize src.length threadCount)
      (ranges src.length threadCount) 0 []
    CpOutcome.ok out.1 out.2

/-- Fault oracle of a whole run in which no I/O call fails. -/
def noErr2 : Nat → Nat → Bool := fun _ _ => false

/-- The `cp` function (lines 86-161) on a run without worker I/O
errors. -/
def cp (src : List Nat) (threadCount bufferSize : Nat) : CpOutcome :=
  cpE src noErr2 noErr2 threadCount bufferSize

/-- Final contents of the target file, when `cp` returned `Ok`. -/
def CpOutcome.targetContents : CpOutcome → Option (List Nat)
  | .panicked _ => none
  | .ok t _ => some t

/-- Whether the run opened (hence created and truncated) the target. -/
def CpOutcome.targetWasTruncated : CpOutcome → Bool
  | .panicked t => t.isSome
  | .ok _ _ => true

/-- Whether `cp` returned `Ok(())`. -/
def CpOutcome.isOk : CpOutcome → Bool
  | .panicked _ => false
  | .ok _ _ => true

/-- The event list worker `j` delivered to the renderer, if any. -/
def CpOutcome.workerEvents? : CpOutcome → Nat → Option (List Status)
  | .panicked _, _ => none
  | .ok _ evs, j => evs[j]?

/-! ### Basic facts about the file primitives -/

lemma readAt_length (file : List Nat) (offset len : Nat) :
    (readAt file offset len).length = min len (file.length - offset) := by
  simp [readAt]

lemma writeAt_of_length_eq (l d : List Nat) :
    writeAt l l.length d = l ++ d := by
  simp [writeAt]

/-! ### The fuel argument is irrelevant above the remaining distance -/

lemma workerLoopAux_fuel_irrel (i : Nat) (src : List Nat)
    (rErr wErr : Nat → Bool) (bufSize endOff : Nat) :
    ∀ f g offset tgt, endOff ≤ offset + f → endOff ≤ offset + g →
      workerLoopAux i src rErr wErr bufSize endOff f offset tgt =
        workerLoopAux i src rErr wErr bufSize endOff g offset tgt := by
  intro f
  induction f with
  | zero =>
    intro g offset tgt hf _
    cases g with
    | zero => rfl
    | succ g =>
      have h0 : endOff - offset = 0 := by omega
      simp [workerLoopAux, h0]
  | succ f ih =>
    intro g offset tgt hf hg
    cases g with
    | zero =>
      have h0 : endOff - offset = 0 := by omega
      simp [workerLoopAux, h0]
    | succ g =>
      by_cases h0 : min bufSize (endOff - offset) = 0
      · simp [workerLoopAux, h0]
      · have hlt : offset < endOff := by omega
        simp only [workerLoopAux, if_neg h0]
        by_cases hre : rErr offset
        · simp [hre]
        · simp only [if_neg hre]
          by_cases hrd : (readAt src offset (min bufSize (endOff - offset))).length = 0
          · simp [hrd]
          · simp only [if_neg hrd]
            by_cases hwe : wErr offset
            · simp [hwe]
            · simp only [if_neg hwe]
              have hle : (readAt src offset (min bufSize (endOff - offset))).length
                  ≤ min bufSize (endOff - offset) := by
                rw [readAt_length]; omega
              rw [ih g (offset + (readAt src offset (min bufSize (endOff - offset))).length)
                (writeAt tgt offset (readAt src offset (min bufSize (endOff - offset))))
                (by omega) (by omega)]

/-- One-step unfolding of a worker's loop, mirroring the body of
lines 122-149. -/
lemma workerLoopE_unfold (i : Nat) (src : List Nat) (rErr wErr : Nat → Bool)
    (tgt : List Nat) (bufSize endOff offset : Nat) :
    workerLoopE i src rErr wErr tgt bufSize endOff offset =
      if min bufSize (endOff - offset) = 0 then ⟨tgt, [], [], false⟩
      else if rErr offset then
        ⟨tgt, [], [(offset, min bufSize (endOff - offset))], true⟩
      else if (readAt src offset (min bufSize (endOff - offset))).length = 0 then
        ⟨tgt, [], [(offset, min bufSize (endOff - offset))], false⟩
      else if wErr offset then
        ⟨tgt, [], [(offset, min bufSize (endOff - offset))], true⟩
      else
        ⟨(workerLoopE i src rErr wErr
            (writeAt tgt offset (readAt src offset (min bufSize (endOff - offset))))
            bufSize endOff
            (offset + (readAt src offset (min bufSize (endOff - offset))).length)).target,
         ⟨i, (readAt src offset (min bufSize (endOff - offset))).length, offset⟩ ::
           (workerLoopE i src rErr wErr
             (writeAt tgt offset (readAt src offset (min bufSize (endOff - offset))))
             bufSize endOff
             (offset + (readAt src offset (min bufSize (endOff - offset))).length)).events,
         (offset, min bufSize (endOff - offset)) ::
           (workerLoopE i src rErr wErr
             (writeAt tgt offset (readAt src offset (min bufSize (endOff - offset))))
             bufSize endOff
             (offset + (readAt src offset (min bufSize (endOff - offset))).length)).reads,
         (workerLoopE i src rErr wErr
           (writeAt tgt offset (readAt src offset (min bufSize (endOff - offset))))
           bufSize endOff
           (offset + (readAt src offset (min bufSize (endOff - offset))).length)).panicked⟩ := by
  by_cases h0 : min bufSize (endOff - offset) = 0
  · rw [if_pos h0]
    rcases Nat.eq_zero_or_pos (endOff - offset) with h | h
    · unfold workerLoopE
      rw [h]
      simp [workerLoopAux]
    · obtain ⟨k, hk⟩ : ∃ k, endOff - offset = k + 1 := ⟨endOff - offset - 1, by omega⟩
      unfold workerLoopE
      rw [hk]
      simp [workerLoopAux, h0]
  · obtain ⟨k, hk⟩ : ∃ k, endOff - offset = k + 1 := ⟨endOff - offset - 1, by omega⟩
    rw [if_neg h0]
    unfold workerLoopE
    conv_lhs => rw [hk]
    simp only [workerLoopAux]
    rw [if_neg h0]
    by_cases hre : rErr offset = true
    · simp only [if_pos hre]
    · simp only [if_neg hre]
      by_cases hrd : (readAt src offset (min bufSize (endOff - offset))).length = 0
      · simp only [if_pos hrd]
      · simp only [if_neg hrd]
        by_cases hwe : wErr offset = true
        · simp only [if_pos hwe]
        · simp only [if_neg hwe]
          have hl1 : 1 ≤ (readAt src offset (min bufSize (endOff - offset))).length := by
            omega
          have hl2 : (readAt src offset (min bufSize (endOff - offset))).length
              ≤ min bufSize (endOff - offset) := by
            rw [readAt_length]; omega
          rw [workerLoopAux_fuel_irrel i src rErr wErr bufSize endOff k
            (endOff - (offset + (readAt src offset (min bufSize (endOff - offset))).length))
            (offset + (readAt src offset (min bufSize (endOff - offset))).length)
            (writeAt tgt offset (readAt src offset (min bufSize (endOff - offset))))
            (by omega) (by omega)]

/-- A worker whose range is already exhausted stops before doing any
I/O (the `bytes_to_read == 0` exit of lines 128-130). -/
lemma workerLoopE_of_le (i : Nat) (src : List Nat) (rErr wErr : Nat → Bool)
    (tgt : List Nat) (bufSize endOff offset : Nat) (h : endOff ≤ offset) :
    workerLoopE i src rErr wErr tgt bufSize endOff offset =
      ⟨tgt, [], [], false⟩ := by
  unfold workerLoopE
  rw [Nat.sub_eq_zero_of_le h]
  simp [workerLoopAux]

/-- With a zero buffer size every worker stops on its first iteration. -/
lemma workerLoopE_buf_zero (i : Nat) (src : List Nat) (rErr wErr : Nat → Bool)
    (tgt : List Nat) (endOff offset : Nat) :
    workerLoopE i src rErr wErr tgt 0 endOff offset = ⟨tgt, [], [], false⟩ := by
  rw [workerLoopE_unfold]
  simp

/-- If every range in the plan is empty, the run leaves the target alone
and every worker emits no event. -/
lemma runWorkers_trivial (src : List Nat) (rErr wErr : Nat → Nat → Bool)
    (bufSize : Nat) :
    ∀ (rs : List (Nat × Nat)) (i : Nat) (tgt : List Nat),
      (∀ r ∈ rs, r.2 ≤ r.1) →
      runWorkers src rErr wErr bufSize rs i tgt =
        (tgt, List.replicate rs.length []) := by
  intro rs
  induction rs with
  | nil => intro i tgt _; rfl
  | cons r rest ih =>
    intro i tgt h
    have hr : r.2 ≤ r.1 := h r (List.mem_cons_self r rest)
    simp only [runWorkers, workerLoopE_of_le i src (rErr i) (wErr i) tgt bufSize r.2 r.1 hr,
      ih (i + 1) tgt (fun x hx => h x (List.mem_cons_of_mem r hx))]
    rfl

/-- With a zero effective buffer size the whole run writes nothing. -/
lemma runWorkers_buf_zero (src : List Nat) (rErr wErr : Nat → Nat → Bool) :
    ∀ (rs : List (Nat × Nat)) (i : Nat) (tgt : List Nat),
      runWorkers src rErr wErr 0 rs i tgt = (tgt, List.replicate rs.length []) := by
  intro rs
  induction rs with
  | nil => intro i tgt; rfl
  | cons r rest ih =>
    intro i tgt
    simp only [runWorkers, workerLoopE_buf_zero i src (rErr i) (wErr i) tgt r.2 r.1,
      ih (i + 1) tgt]
    rfl

/-! ### A worker's events, reads and fate do not depend on the target
contents it starts from -/

lemma workerLoopAux_tgt_irrel (i : Nat) (src : List Nat)
    (rErr wErr : Nat → Bool) (bufSize endOff : Nat) :
    ∀ (fuel offset : Nat) (tgt tgt' : List Nat),
      (workerLoopAux i src rErr wErr bufSize endOff fuel offset tgt).events =
        (workerLoopAux i src rErr wErr bufSize endOff fuel offset tgt').events ∧
      (workerLoopAux i src rErr wErr bufSize endOff fuel offset tgt).reads =
        (workerLoopAux i src rErr wErr bufSize endOff fuel offset tgt').reads ∧
      (workerLoopAux i src rErr wErr bufSize endOff fuel offset tgt).panicked =
        (workerLoopAux i src rErr wErr bufSize endOff fuel offset tgt').panicked := by
  intro fuel
  induction fuel with
  | zero => intro offset tgt tgt'; exact ⟨rfl, rfl, rfl⟩
  | succ fuel ih =>
    intro offset tgt tgt'
    by_cases h0 : min bufSize (endOff - offset) = 0
    · simp [workerLoopAux, h0]
    · simp only [workerLoopAux, if_neg h0]
      by_cases hre : rErr offset = true
      · simp [hre]
      · simp only [if_neg hre]
        by_cases hrd : (readAt src offset (min bufSize (endOff - offset))).length = 0
        · simp [hrd]
        · simp only [if_neg hrd]
          by_cases hwe : wErr offset = true
          · simp [hwe]
          · simp only [if_neg hwe]
            obtain ⟨h1, h2, h3⟩ := ih
              (offset + (readAt src offset (min bufSize (endOff - offset))).length)
              (writeAt tgt offset (readAt src offset (min bufSize (endOff - offset))))
              (writeAt tgt' offset (readAt src offset (min bufSize (endOff - offset))))
            exact ⟨by simp [h1], by simp [h2], by simp [h3]⟩

/-- The event stream worker `j` produces depends only on its own index,
range, buffer size and fault oracle, never on the targets the earlier
workers left behind. -/
lemma runWorkers_getElem? (src : List Nat) (rErr wErr : Nat → Nat → Bool)
    (bufSize : Nat) :
    ∀ (rs : List (Nat × Nat)) (i : Nat) (tgt : List Nat) (j : Nat),
      (runWorkers src rErr wErr bufSize rs i tgt).2[j]? =
        (rs[j]?).map fun r =>
          (workerLoopE (i + j) src (rErr (i + j)) (wErr (i + j)) [] bufSize
            r.2 r.1).events := by
  intro rs
  induction rs with
  | nil => intro i tgt j; simp [runWorkers]
  | cons r rest ih =>
    intro i tgt j
    cases j with
    | zero =>
      simp only [runWorkers, List.getElem?_cons_zero, Option.map_some]
      have := (workerLoopAux_tgt_irrel i src (rErr i) (wErr i) bufSize r.2
        (r.2 - r.1) r.1 tgt []).1
      simpa [workerLoopE] using this
    | succ j =>
      simp only [runWorkers, List.getElem?_cons_succ]
      rw [ih (i + 1)
        (workerLoopE i src (rErr i) (wErr i) tgt bufSize r.2 r.1).target j]
      rw [show i + (j + 1) = i + 1 + j by omega]

/-! ### An error-free worker copies exactly its range -/

lemma writeAt_append (l d : List Nat) (off : Nat) (h : l.length = off) :
    writeAt l off d = l ++ d := by
  subst h
  exact writeAt_of_length_eq l d

lemma workerLoopAux_copies (i : Nat) (src : List Nat) (rErr wErr : Nat → Bool)
    (hre : ∀ o, rErr o = false) (hwe : ∀ o, wErr o = false)
    (bufSize endOff : Nat) (hbuf : 1 ≤ bufSize) (hend : endOff ≤ src.length) :
    ∀ (fuel offset : Nat), endOff ≤ offset + fuel → offset ≤ endOff →
      (workerLoopAux i src rErr wErr bufSize endOff fuel offset
        (src.take offset)).target = src.take endOff := by
  intro fuel
  induction fuel with
  | zero =>
    intro offset h1 h2
    have h3 : offset = endOff := by omega
    simp [workerLoopAux, h3]
  | succ fuel ih =>
    intro offset h1 h2
    by_cases h0 : min bufSize (endOff - offset) = 0
    · have h3 : offset = endOff := by omega
      simp [workerLoopAux, h0, h3]
    · have hdlen : (readAt src offset (min bufSize (endOff - offset))).length
          = min bufSize (endOff - offset) := by
        rw [readAt_length]; omega
      have hdne : ¬ (readAt src offset (min bufSize (endOff - offset))).length = 0 := by
        omega
      simp only [workerLoopAux, if_neg h0, hre offset, Bool.false_eq_true, if_false,
        if_neg hdne, hwe offset]
      have hto : (src.take offset).length = offset := by
        rw [List.length_take]; omega
      rw [writeAt_append (src.take offset)
        (readAt src offset (min bufSize (endOff - offset))) offset hto]
      have happ : src.take offset ++ readAt src offset (min bufSize (endOff - offset))
          = src.take (offset + (readAt src offset (min bufSize (endOff - offset))).length) := by
        rw [hdlen, readAt, List.take_add]
      rw [happ]
      exact ih (offset + (readAt src offset (min bufSize (endOff - offset))).length)
        (by omega) (by omega)

lemma workerLoopE_copies (i : Nat) (src : List Nat) (rErr wErr : Nat → Bool)
    (hre : ∀ o, rErr o = false) (hwe : ∀ o, wErr o = false)
    (bufSize endOff offset : Nat) (hbuf : 1 ≤ bufSize) (hend : endOff ≤ src.length)
    (hoff : offset ≤ endOff) :
    (workerLoopE i src rErr wErr (src.take offset) bufSize endOff offset).target
      = src.take endOff :=
  workerLoopAux_copies i src rErr wErr hre hwe bufSize endOff hbuf hend
    (endOff - offset) offset (by omega) hoff

/-! ### The planned ranges form a gapless chain over the file -/

/-- The ranges in the list are consecutive, each starts where the previous
one ended, beginning at `a` and ending at `b`. -/
def contig (a : Nat) : List (Nat × Nat) → Nat → Prop
  | [], b => a = b
  | r :: rest, b => r.1 = a ∧ a ≤ r.2 ∧ contig r.2 rest b

lemma contig_le : ∀ (rs : List (Nat × Nat)) (a b : Nat), contig a rs b → a ≤ b := by
  intro rs
  induction rs with
  | nil => intro a b h; exact Nat.le_of_eq h
  | cons r rest ih =>
    intro a b h
    obtain ⟨_, h2, h3⟩ := h
    exact le_trans h2 (ih r.2 b h3)

lemma contig_ranges_aux (len wc : Nat) :
    ∀ (n j a : Nat), j + n = wc → 1 ≤ n → a = startOffset len wc j →
      contig a ((List.range' j n).map fun k =>
        (startOffset len wc k, lastByteIndexToRead len wc k)) len := by
  intro n
  induction n with
  | zero => intro j a h h1 _; omega
  | succ n ih =>
    intro j a hj _ ha
    rw [List.range'_succ, List.map_cons]
    cases n with
    | zero =>
      have hlast : j = wc - 1 := by omega
      have hle : startOffset len wc j ≤ len := by
        have t1 : len / wc * wc ≤ len := Nat.div_mul_le_self len wc
        have t2 : j * (len / wc) ≤ wc * (len / wc) :=
          Nat.mul_le_mul_right (len / wc) (by omega)
        have t3 : wc * (len / wc) = len / wc * wc := Nat.mul_comm wc (len / wc)
        simp only [startOffset, totalBytesPerThread]
        omega
      refine ⟨ha.symm, ?_, ?_⟩
      · rw [ha]
        simp only [lastByteIndexToRead, if_pos hlast]
        exact hle
      · simp only [lastByteIndexToRead, if_pos hlast]
        simp [contig]
    | succ m =>
      have hne : ¬ j = wc - 1 := by omega
      refine ⟨ha.symm, ?_, ?_⟩
      · rw [ha]
        simp only [lastByteIndexToRead, if_neg hne, startOffset]
        exact Nat.mul_le_mul_right _ (by omega)
      · exact ih (j + 1) (lastByteIndexToRead len wc j) (by omega) (by omega)
          (by simp [lastByteIndexToRead, if_neg hne, startOffset])

lemma contig_ranges (len wc : Nat) (h : 1 ≤ wc) :
    contig 0 (ranges len wc) len := by
  rw [ranges, List.range_eq_range']
  exact contig_ranges_aux len wc wc 0 0 (by omega) h (by simp [startOffset])

/-- Error-free sequential execution of workers over a gapless chain of
ranges extends the copied prefix of the source to the chain's end. -/
lemma runWorkers_copies (src : List Nat) (rErr wErr : Nat → Nat → Bool)
    (hre : ∀ i o, rErr i o = false) (hwe : ∀ i o, wErr i o = false)
    (bufSize : Nat) (hbuf : 1 ≤ bufSize) :
    ∀ (rs : List (Nat × Nat)) (a b i : Nat), contig a rs b → b ≤ src.length →
      (runWorkers src rErr wErr bufSize rs i (src.take a)).1 = src.take b := by
  intro rs
  induction rs with
  | nil =>
    intro a b i h _
    simpa [runWorkers] using congrArg src.take h
  | cons r rest ih =>
    intro a b i h hb
    obtain ⟨h1, h2, h3⟩ := h
    subst h1
    have hrb : r.2 ≤ b := contig_le rest r.2 b h3
    simp only [runWorkers]
    rw [workerLoopE_copies i src (rErr i) (wErr i) (hre i) (hwe i) bufSize r.2 r.1
      hbuf (le_trans hrb hb) h2]
    exact ih r.2 b (i + 1) h3 hb

/-! ### A worker never touches bytes outside its range -/

lemma workerLoopAux_inRange (i : Nat) (src : List Nat) (rErr wErr : Nat → Bool)
    (bufSize endOff : Nat) :
    ∀ (fuel offset : Nat) (tgt : List Nat) (lo : Nat), lo ≤ offset →
      (∀ p ∈ (workerLoopAux i src rErr wErr bufSize endOff fuel offset tgt).reads,
        lo ≤ p.1 ∧ p.1 + p.2 ≤ endOff) ∧
      (∀ s ∈ (workerLoopAux i src rErr wErr bufSize endOff fuel offset tgt).events,
        lo ≤ s.offset ∧ s.offset + s.bytesWritten ≤ endOff) := by
  intro fuel
  induction fuel with
  | zero =>
    intro offset tgt lo _
    exact ⟨by intro p hp; simp [workerLoopAux] at hp, by intro s hs; simp [workerLoopAux] at hs⟩
  | succ fuel ih =>
    intro offset tgt lo hlo
    have hmin : min bufSize (endOff - offset) ≤ endOff - offset := Nat.min_le_right _ _
    by_cases h0 : min bufSize (endOff - offset) = 0
    · exact ⟨by intro p hp; simp [workerLoopAux, h0] at hp,
        by intro s hs; simp [workerLoopAux, h0] at hs⟩
    · simp only [workerLoopAux, if_neg h0]
      by_cases hre : rErr offset = true
      · simp only [if_pos hre]
        refine ⟨?_, ?_⟩
        · intro p hp
          simp only [List.mem_singleton] at hp
          subst hp
          exact ⟨hlo, by omega⟩
        · intro s hs
          simp at hs
      · simp only [if_neg hre]
        by_cases hrd : (readAt src offset (min bufSize (endOff - offset))).length = 0
        · simp only [if_pos hrd]
          refine ⟨?_, ?_⟩
          · intro p hp
            simp only [List.mem_singleton] at hp
            subst hp
            exact ⟨hlo, by omega⟩
          · intro s hs
            simp at hs
        · simp only [if_neg hrd]
          by_cases hwe : wErr offset = true
          · simp only [if_pos hwe]
            refine ⟨?_, ?_⟩
            · intro p hp
              simp only [List.mem_singleton] at hp
              subst hp
              exact ⟨hlo, by omega⟩
            · intro s hs
              simp at hs
          · simp only [if_neg hwe]
            have hdle : (readAt src offset (min bufSize (endOff - offset))).length
                ≤ min bufSize (endOff - offset) := by
              rw [readAt_length]; omega
            obtain ⟨ihr, ihe⟩ := ih
              (offset + (readAt src offset (min bufSize (endOff - offset))).length)
              (writeAt tgt offset (readAt src offset (min bufSize (endOff - offset))))
              lo (by omega)
            refine ⟨?_, ?_⟩
            · intro p hp
              simp only [List.mem_cons] at hp
              rcases hp with hp | hp
              · subst hp
                exact ⟨hlo, by omega⟩
              · exact ihr p hp
            · intro s hs
              simp only [List.mem_cons] at hs
              rcases hs with hs | hs
              · subst hs
                exact ⟨hlo, by simp only []; omega⟩
              · exact ihe s hs

/-! ## The claims -/

/-- C2: for every `total_size ≥ 0` and `worker_count ≥ 1` the planned
per-worker ranges (worker `i < worker_count - 1` gets
`[i * per_worker, (i+1) * per_worker)`, the last worker gets
`[(worker_count - 1) * per_worker, total_size)`) partition
`[0, total_size)` exactly: every position below `total_size` is covered,
every covered position is below `total_size`, the ranges are pairwise
disjoint and ordered by worker index, and the last worker absorbs the
remainder `total_size mod worker_count`. -/
theorem ranges_partition (totalSize wc : Nat) (h : 1 ≤ wc) :
    (∀ i, i < wc → (ranges totalSize wc)[i]? =
      some (startOffset totalSize wc i, lastByteIndexToRead totalSize wc i)) ∧
    (∀ x, x < totalSize → ∃ i, i < wc ∧ startOffset totalSize wc i ≤ x ∧
      x < lastByteIndexToRead totalSize wc i) ∧
    (∀ i x, i < wc → startOffset totalSize wc i ≤ x →
      x < lastByteIndexToRead totalSize wc i → x < totalSize) ∧
    (∀ i j, i < j → j < wc →
      lastByteIndexToRead totalSize wc i ≤ startOffset totalSize wc j) ∧
    (lastByteIndexToRead totalSize wc (wc - 1) - startOffset totalSize wc (wc - 1)
      = totalBytesPerThread totalSize wc + totalSize % wc) := by
  refine ⟨?_, ?_, ?_, ?_, ?_⟩
  · intro i hi
    simp [ranges, hi]
  · intro x hx
    by_cases hpw : totalBytesPerThread totalSize wc = 0
    · refine ⟨wc - 1, by omega, ?_, ?_⟩
      · simp [startOffset, hpw]
      · simp only [lastByteIndexToRead, if_pos rfl]
        exact hx
    · by_cases hq : x / totalBytesPerThread totalSize wc < wc - 1
      · refine ⟨x / totalBytesPerThread totalSize wc, by omega, ?_, ?_⟩
        · exact Nat.div_mul_le_self x _
        · have hne : ¬ x / totalBytesPerThread totalSize wc = wc - 1 := by omega
          simp only [lastByteIndexToRead, if_neg hne]
          have hdm := Nat.div_add_mod x (totalBytesPerThread totalSize wc)
          have hml := Nat.mod_lt x (show 0 < totalBytesPerThread totalSize wc by omega)
          have hcm : totalBytesPerThread totalSize wc * (x / totalBytesPerThread totalSize wc)
              = x / totalBytesPerThread totalSize wc * totalBytesPerThread totalSize wc :=
            Nat.mul_comm _ _
          rw [Nat.add_mul, Nat.one_mul]
          omega
      · refine ⟨wc - 1, by omega, ?_, ?_⟩
        · have t1 : (wc - 1) * totalBytesPerThread totalSize wc
              ≤ x / totalBytesPerThread totalSize wc * totalBytesPerThread totalSize wc :=
            Nat.mul_le_mul_right _ (by omega)
          have t2 : x / totalBytesPerThread totalSize wc * totalBytesPerThread totalSize wc
              ≤ x := Nat.div_mul_le_self x _
          simp only [startOffset]
          omega
        · simp only [lastByteIndexToRead, if_pos rfl]
          exact hx
  · intro i x hi hs hlt
    by_cases hi1 : i = wc - 1
    · rw [lastByteIndexToRead, if_pos hi1] at hlt
      exact hlt
    · rw [lastByteIndexToRead, if_neg hi1] at hlt
      have t1 : totalSize / wc * wc ≤ totalSize := Nat.div_mul_le_self totalSize wc
      have t2 : (i + 1) * (totalSize / wc) ≤ wc * (totalSize / wc) :=
        Nat.mul_le_mul_right (totalSize / wc) (by omega)
      have t3 : wc * (totalSize / wc) = totalSize / wc * wc := Nat.mul_comm wc _
      simp only [totalBytesPerThread] at hlt
      omega
  · intro i j hij hj
    have hi1 : ¬ i = wc - 1 := by omega
    simp only [lastByteIndexToRead, if_neg hi1, startOffset]
    exact Nat.mul_le_mul_right _ (by omega)
  · have hlast : lastByteIndexToRead totalSize wc (wc - 1) = totalSize := by
      simp [lastByteIndexToRead]
    rw [hlast]
    obtain ⟨w, rfl⟩ : ∃ w, wc = w + 1 := ⟨wc - 1, by omega⟩
    simp only [startOffset, totalBytesPerThread, Nat.add_sub_cancel]
    have hdm := Nat.div_add_mod totalSize (w + 1)
    have hmul : (w + 1) * (totalSize / (w + 1))
        = w * (totalSize / (w + 1)) + totalSize / (w + 1) := Nat.succ_mul w _
    generalize hq : totalSize / (w + 1) = q at *
    generalize hr : totalSize % (w + 1) = r at *
    generalize hp : w * q = p at *
    generalize hs : (w + 1) * q = s at *
    omega

/-- Witness for `ranges_partition`: the concrete plan for ten bytes over
three workers, whose last worker absorbs the remainder of one byte. -/
theorem ranges_partition_witness :
    lastByteIndexToRead 10 3 (3 - 1) - startOffset 10 3 (3 - 1)
      = totalBytesPerThread 10 3 + 10 % 3 :=
  (ranges_partition 10 3 (by decide)).2.2.2.2

/-- C1 counterexample: with a 3-byte source, worker count 8 (inside
`1..=8`) and requested buffer size 1 (inside `1..=total_size`) the
effective buffer size is `min 1 (3 / 8) = 0`, every worker's first
`bytes_to_read` is 0, and the finished target is the empty truncated
file rather than a byte-identical copy. -/
theorem cp_roundtrip_cex :
    1 ≤ 8 ∧ 8 ≤ 8 ∧ 1 ≤ List.length [7, 7, 7] ∧ 1 ≤ List.length [7, 7, 7] ∧
    ¬ CpOutcome.targetContents (cp [7, 7, 7] 8 1) = some [7, 7, 7] := by
  decide

/-- C1 (amended): for every source content, every worker count in `1..=8`
that also does not exceed the total size (so the per-worker byte count,
hence the effective buffer size, is at least 1), and every requested
buffer size in `1..=total_size`, running the copy to completion yields a
target byte-identical to the source and of equal length. -/
theorem cp_roundtrip (src : List Nat) (wc buf : Nat)
    (hwc1 : 1 ≤ wc) (hwc8 : wc ≤ 8) (hwlen : wc ≤ src.length)
    (hb1 : 1 ≤ buf) (hb2 : buf ≤ src.length) :
    CpOutcome.targetContents (cp src wc buf) = some src ∧
    (CpOutcome.targetContents (cp src wc buf)).map List.length
      = some src.length := by
  have hwc0 : ¬ wc = 0 := by omega
  have hbuf : 1 ≤ effectiveBufferSize buf src.length wc := by
    have hd : 1 ≤ src.length / wc := (Nat.one_le_div_iff (by omega)).mpr hwlen
    simp only [effectiveBufferSize, totalBytesPerThread]
    omega
  have hrun := runWorkers_copies src noErr2 noErr2 (fun _ _ => rfl) (fun _ _ => rfl)
    (effectiveBufferSize buf src.length wc) hbuf
    (ranges src.length wc) 0 src.length 0 (contig_ranges src.length wc hwc1) le_rfl
  rw [List.take_zero, List.take_length] at hrun
  constructor
  · simp only [cp, cpE, if_neg hwc0, CpOutcome.targetContents]
    exact congrArg some hrun
  · simp only [cp, cpE, if_neg hwc0, CpOutcome.targetContents, Option.map_some]
    rw [hrun]
    rfl

/-- Witness for `cp_roundtrip` at a job whose size is not a multiple of
the worker count, so the last worker absorbs the remainder. -/
theorem cp_roundtrip_witness :
    CpOutcome.targetContents (cp [1, 2, 3, 4, 5] 2 2) = some [1, 2, 3, 4, 5] :=
  (cp_roundtrip [1, 2, 3, 4, 5] 2 2 (by decide) (by decide) (by decide)
    (by decide) (by decide)).1

/-- C4 counterexample: invoking the copy with `worker_count = 0` panics
at the `checked_div(...).unwrap()` of line 101, but the target handle has
already been opened with create and truncate on lines 93-99: the target
file was created and truncated, contradicting the claim that the
rejection happens before any file handle is opened. -/
theorem cp_zero_workers_cex :
    CpOutcome.targetWasTruncated (cp [3] 0 7) = true ∧
    ¬ cp [3] 0 7 = CpOutcome.panicked none := by
  decide

/-- C4 (amended): with `worker_count = 0` the operation is aborted by the
division panic before any worker is spawned and before any byte is
copied, but only after both file handles have been opened: the target
file has already been created and truncated to empty contents. -/
theorem cp_zero_workers (src : List Nat) (buf : Nat) :
    cp src 0 buf = CpOutcome.panicked (some []) ∧
    CpOutcome.targetWasTruncated (cp src 0 buf) = true :=
  ⟨rfl, rfl⟩

/-- C5: the effective buffer size equals `min(requested_buffer_size,
per_worker_byte_count)` with `per_worker_byte_count = floor(total_size /
worker_count)`; it is computed once from the job parameters before any
worker starts, and the run hands that single value to every worker; it
never exceeds the per-worker byte count, and it is at least 1 whenever
both the per-worker byte count and the request are. -/
theorem effective_buffer_spec (req totalSize wc : Nat) :
    effectiveBufferSize req totalSize wc
      = min req (totalBytesPerThread totalSize wc) ∧
    effectiveBufferSize req totalSize wc ≤ totalBytesPerThread totalSize wc ∧
    (1 ≤ totalBytesPerThread totalSize wc → 1 ≤ req →
      1 ≤ effectiveBufferSize req totalSize wc) ∧
    (∀ src : List Nat, ¬ wc = 0 →
      cp src wc req = CpOutcome.ok
        (runWorkers src noErr2 noErr2 (effectiveBufferSize req src.length wc)
          (ranges src.length wc) 0 []).1
        (runWorkers src noErr2 noErr2 (effectiveBufferSize req src.length wc)
          (ranges src.length wc) 0 []).2) := by
  refine ⟨rfl, Nat.min_le_right _ _, ?_, ?_⟩
  · intro h1 h2
    simp only [effectiveBufferSize]
    omega
  · intro src h
    simp [cp, cpE, if_neg h]

/-- Witness for `effective_buffer_spec` at the default 10000-byte request
over a 100-byte file and 4 workers. -/
theorem effective_buffer_spec_witness :
    1 ≤ totalBytesPerThread 100 4 ∧ 1 ≤ 10000 ∧
    1 ≤ effectiveBufferSize 10000 100 4 :=
  ⟨by decide, by decide,
    (effective_buffer_spec 10000 100 4).2.2.1 (by decide) (by decide)⟩

/-- C6: for any worker over any planned range, and any total size, worker
count at least 1 and buffer size, every positional read the worker issues
(recorded as offset and requested length) and every positional write
(recorded in its progress event as offset and bytes written) affects only
bytes inside the worker's assigned half-open range. -/
theorem worker_in_range (src tgt : List Nat) (totalSize wc buf i : Nat)
    (hwc : 1 ≤ wc) (r : Nat × Nat) (hr : r ∈ ranges totalSize wc) :
    (∀ p ∈ (workerLoop i src tgt buf r.2 r.1).reads,
      r.1 ≤ p.1 ∧ p.1 + p.2 ≤ r.2) ∧
    (∀ s ∈ (workerLoop i src tgt buf r.2 r.1).events,
      r.1 ≤ s.offset ∧ s.offset + s.bytesWritten ≤ r.2) :=
  workerLoopAux_inRange i src noErr noErr buf r.2 (r.2 - r.1) r.1 tgt r.1 le_rfl

/-- Witness for `worker_in_range`: the middle worker of a 10-byte,
3-worker job with buffer size 2; its first read stays inside `[3, 6)`. -/
theorem worker_in_range_witness :
    (3, 6) ∈ ranges 10 3 ∧
    (3, 2) ∈ (workerLoop 1 [0, 1, 2, 3, 4, 5, 6, 7, 8, 9] [] 2 6 3).reads ∧
    3 ≤ 3 ∧ 3 + 2 ≤ 6 :=
  ⟨by decide, by decide,
    (worker_in_range [0, 1, 2, 3, 4, 5, 6, 7, 8, 9] [] 10 3 2 1 (by decide)
      (3, 6) (by decide)).1 (3, 2) (by decide)⟩

/-- C7: a zero-length source gives every worker an empty range; every
worker terminates immediately, no progress event ever reaches the
renderer, and the finished target file is empty. -/
theorem cp_empty_source (wc buf : Nat) (h : 1 ≤ wc) :
    cp [] wc buf = CpOutcome.ok [] (List.replicate wc []) ∧
    (∀ r ∈ ranges 0 wc, r.1 = r.2) := by
  have hr : ∀ r ∈ ranges 0 wc, r.1 = 0 ∧ r.2 = 0 := by
    intro r hrm
    simp only [ranges, List.mem_map, List.mem_range] at hrm
    obtain ⟨k, _, hk⟩ := hrm
    subst hk
    constructor
    · simp [startOffset, totalBytesPerThread]
    · simp [lastByteIndexToRead, totalBytesPerThread]
  have h0 : ¬ wc = 0 := by omega
  constructor
  · have hemp : ∀ r ∈ ranges 0 wc, r.2 ≤ r.1 := by
      intro r hrm
      obtain ⟨e1, e2⟩ := hr r hrm
      omega
    have hlen : (ranges 0 wc).length = wc := by
      simp [ranges]
    simp only [cp, cpE, if_neg h0, List.length_nil]
    rw [runWorkers_trivial [] noErr2 noErr2 _ (ranges 0 wc) 0 [] hemp, hlen]
  · intro r hrm
    obtain ⟨e1, e2⟩ := hr r hrm
    omega

/-- Witness for `cp_empty_source`: three workers over an empty file. -/
theorem cp_empty_source_witness :
    cp [] 3 7 = CpOutcome.ok [] (List.replicate 3 []) :=
  (cp_empty_source 3 7 (by decide)).1

/-- C8: if a positional read returns zero bytes while the cursor is still
strictly below the range end (with a nonzero buffer, so the read was
actually issued), the worker's loop stops right there: the zero-length
read is its last I/O operation, no progress event is emitted for that
iteration, no further read or write happens, and the target is left
untouched. -/
theorem zero_read_early_exit (i : Nat) (src tgt : List Nat)
    (buf endOff offset : Nat) (hoff : offset < endOff) (hbuf : 1 ≤ buf)
    (hread : (readAt src offset (min buf (endOff - offset))).length = 0) :
    workerLoop i src tgt buf endOff offset =
      ⟨tgt, [], [(offset, min buf (endOff - offset))], false⟩ := by
  rw [workerLoop, workerLoopE_unfold]
  rw [if_neg (show ¬ min buf (endOff - offset) = 0 by omega)]
  simp [noErr, hread]

/-- Witness for `zero_read_early_exit`: a worker with range `[0, 4)` and
buffer 3 over an empty source reads zero bytes at once and stops. -/
theorem zero_read_early_exit_witness :
    0 < 4 ∧ 1 ≤ 3 ∧ (readAt [] 0 (min 3 (4 - 0))).length = 0 ∧
    workerLoop 0 [] [5, 5] 3 4 0 = ⟨[5, 5], [], [(0, min 3 (4 - 0))], false⟩ :=
  ⟨by decide, by decide, by decide,
    zero_read_early_exit 0 [] [5, 5] 3 4 0 (by decide) (by decide) (by decide)⟩

/-- C3 counterexample: a loop iteration can have a nonzero
`bytes_to_read` yet emit no progress event, because the positional read
returned zero bytes and the loop broke before writing or sending: here a
read of up to 3 bytes was issued at cursor 0 (so the iteration did not
terminate at the `bytes_to_read == 0` check), but the worker's total
event list is empty, while the claim says each such iteration writes,
emits one event and advances the cursor. -/
theorem worker_iteration_cex :
    ¬ min 3 (5 - 0) = 0 ∧
    (workerLoop 0 [] [] 3 5 0).reads = [(0, 3)] ∧
    (workerLoop 0 [] [] 3 5 0).events = [] := by
  decide

/-- C3 (amended): per iteration, `bytes_to_read = min(buffer_size,
end_offset - cursor)`; if it is zero the worker stops.  Otherwise the
worker issues a positional read of up to `bytes_to_read` bytes at the
cursor, and provided at least one byte was actually read it writes
exactly the bytes read to the target at the same cursor offset, emits
one progress event carrying the cursor as the offset before the write
and the byte count written, and continues with the cursor advanced by
the bytes read (a read of zero bytes instead stops the loop without a
write or an event).  Each worker's cursor starts at its range's start
offset. -/
theorem worker_iteration (i : Nat) (src tgt : List Nat)
    (buf endOff offset : Nat) :
    (min buf (endOff - offset) = 0 →
      workerLoop i src tgt buf endOff offset = ⟨tgt, [], [], false⟩) ∧
    (readAt src offset (min buf (endOff - offset))).length
      ≤ min buf (endOff - offset) ∧
    (¬ min buf (endOff - offset) = 0 →
      1 ≤ (readAt src offset (min buf (endOff - offset))).length →
      workerLoop i src tgt buf endOff offset =
        ⟨(workerLoop i src
            (writeAt tgt offset (readAt src offset (min buf (endOff - offset))))
            buf endOff
            (offset + (readAt src offset (min buf (endOff - offset))).length)).target,
         ⟨i, (readAt src offset (min buf (endOff - offset))).length, offset⟩ ::
           (workerLoop i src
             (writeAt tgt offset (readAt src offset (min buf (endOff - offset))))
             buf endOff
             (offset + (readAt src offset (min buf (endOff - offset))).length)).events,
         (offset, min buf (endOff - offset)) ::
           (workerLoop i src
             (writeAt tgt offset (readAt src offset (min buf (endOff - offset))))
             buf endOff
             (offset + (readAt src offset (min buf (endOff - offset))).length)).reads,
         (workerLoop i src
           (writeAt tgt offset (readAt src offset (min buf (endOff - offset))))
           buf endOff
           (offset + (readAt src offset (min buf (endOff - offset))).length)).panicked⟩) ∧
    (∀ (r : Nat × Nat) (rs : List (Nat × Nat)) (t : List Nat) (k : Nat),
      runWorkers src noErr2 noErr2 buf (r :: rs) k t =
        ((runWorkers src noErr2 noErr2 buf rs (k + 1)
            (workerLoop k src t buf r.2 r.1).target).1,
         (workerLoop k src t buf r.2 r.1).events ::
           (runWorkers src noErr2 noErr2 buf rs (k + 1)
             (workerLoop k src t buf r.2 r.1).target).2)) := by
  refine ⟨?_, ?_, ?_, ?_⟩
  · intro h0
    rw [workerLoop, workerLoopE_unfold, if_pos h0]
  · rw [readAt_length]
    omega
  · intro h0 h1
    rw [workerLoop, workerLoopE_unfold, if_neg h0]
    simp only [noErr, Bool.false_eq_true, if_false]
    rw [if_neg
      (show ¬ (readAt src offset (min buf (endOff - offset))).length = 0 by omega)]
    rfl
  · intro r rs t k
    rfl

/-- Witness for `worker_iteration`: a one-byte job whose single
iteration reads one byte, writes it at cursor 0, emits one event and
advances the cursor to 1. -/
theorem worker_iteration_witness :
    workerLoop 0 [9] [] 1 1 0 =
      ⟨(workerLoop 0 [9]
          (writeAt [] 0 (readAt [9] 0 (min 1 (1 - 0)))) 1 1
          (0 + (readAt [9] 0 (min 1 (1 - 0))).length)).target,
       ⟨0, (readAt [9] 0 (min 1 (1 - 0))).length, 0⟩ ::
         (workerLoop 0 [9]
           (writeAt [] 0 (readAt [9] 0 (min 1 (1 - 0)))) 1 1
           (0 + (readAt [9] 0 (min 1 (1 - 0))).length)).events,
       (0, min 1 (1 - 0)) ::
         (workerLoop 0 [9]
           (writeAt [] 0 (readAt [9] 0 (min 1 (1 - 0)))) 1 1
           (0 + (readAt [9] 0 (min 1 (1 - 0))).length)).reads,
       (workerLoop 0 [9]
         (writeAt [] 0 (readAt [9] 0 (min 1 (1 - 0)))) 1 1
         (0 + (readAt [9] 0 (min 1 (1 - 0))).length)).panicked⟩ :=
  (worker_iteration 0 [9] [] 1 1 0).2.2.1 (by decide) (by decide)

/-- C9: an I/O error in a worker's positional read or write makes that
worker's `unwrap` panic, which is fatal to that worker alone and never
retried — the failing call is the worker's last I/O action and no event
is emitted for it; the orchestrator ignores all join results, so no
diagnostic surfaces and `cp` still returns success whatever the fault
pattern; and every other worker's event stream (hence what the renderer
receives from it) is exactly what it would have been without the
failure. -/
theorem worker_failure_semantics :
    (∀ (src : List Nat) (rE wE : Nat → Nat → Bool) (wc buf : Nat), ¬ wc = 0 →
      (cpE src rE wE wc buf).isOk = true) ∧
    (∀ (i : Nat) (src tgt : List Nat) (rE wE : Nat → Bool)
      (buf endOff offset : Nat), offset < endOff → 1 ≤ buf →
      rE offset = true →
      workerLoopE i src rE wE tgt buf endOff offset =
        ⟨tgt, [], [(offset, min buf (endOff - offset))], true⟩) ∧
    (∀ (i : Nat) (src tgt : List Nat) (rE wE : Nat → Bool)
      (buf endOff offset : Nat), offset < endOff → 1 ≤ buf →
      rE offset = false → wE offset = true →
      1 ≤ (readAt src offset (min buf (endOff - offset))).length →
      workerLoopE i src rE wE tgt buf endOff offset =
        ⟨tgt, [], [(offset, min buf (endOff - offset))], true⟩) ∧
    (∀ (src : List Nat) (rE wE rE2 wE2 : Nat → Nat → Bool) (wc buf j : Nat),
      rE j = rE2 j → wE j = wE2 j →
      (cpE src rE wE wc buf).workerEvents? j
        = (cpE src rE2 wE2 wc buf).workerEvents? j) := by
  refine ⟨?_, ?_, ?_, ?_⟩
  · intro src rE wE wc buf h
    simp [cpE, if_neg h, CpOutcome.isOk]
  · intro i src tgt rE wE buf endOff offset h1 h2 hre
    rw [workerLoopE_unfold, if_neg (show ¬ min buf (endOff - offset) = 0 by omega),
      if_pos hre]
  · intro i src tgt rE wE buf endOff offset h1 h2 hre hwe h3
    rw [workerLoopE_unfold, if_neg (show ¬ min buf (endOff - offset) = 0 by omega),
      hre]
    simp only [Bool.false_eq_true, if_false]
    rw [if_neg
      (show ¬ (readAt src offset (min buf (endOff - offset))).length = 0 by omega),
      if_pos hwe]
  · intro src rE wE rE2 wE2 wc buf j h1 h2
    by_cases h : wc = 0
    · simp [cpE, h, CpOutcome.workerEvents?]
    · simp only [cpE, if_neg h, CpOutcome.workerEvents?]
      rw [runWorkers_getElem? src rE wE _ (ranges src.length wc) 0 [] j,
        runWorkers_getElem? src rE2 wE2 _ (ranges src.length wc) 0 [] j,
        Nat.zero_add, h1, h2]

/-- Witness for `worker_failure_semantics`: a worker whose very first
read fails stops at once with one attempted read, no events and a dead
thread, while the run as a whole still reports success. -/
theorem worker_failure_semantics_witness :
    (0 : Nat) < 2 ∧ 1 ≤ 1 ∧
    workerLoopE 0 [1, 2] (fun _ => true) (fun _ => false) [] 1 2 0 =
      ⟨[], [], [(0, min 1 (2 - 0))], true⟩ ∧
    (cpE [1, 2] (fun _ _ => true) (fun _ _ => false) 2 1).isOk = true :=
  ⟨by decide, by decide,
    worker_failure_semantics.2.1 0 [1, 2] [] (fun _ => true) (fun _ => false)
      1 2 0 (by decide) (by decide) rfl,
    worker_failure_semantics.1 [1, 2] (fun _ _ => true) (fun _ _ => false) 2 1
      (by decide)⟩

/-- C10: the effective buffer size is zero exactly when the source is
shorter than the worker count (so the per-worker byte count
`floor(total_size / worker_count)` is zero) or the requested buffer size
is zero; in that case every worker's first `bytes_to_read` is zero, all
workers stop immediately without events, and `cp` returns success having
written nothing: the target file is left truncated to empty and is not a
copy of a nonempty source. -/
theorem zero_effective_buffer (src : List Nat) (wc req : Nat) (hwc : 1 ≤ wc) :
    (effectiveBufferSize req src.length wc = 0 ↔ src.length < wc ∨ req = 0) ∧
    (effectiveBufferSize req src.length wc = 0 →
      cp src wc req = CpOutcome.ok [] (List.replicate wc []) ∧
      (¬ src = [] → ¬ CpOutcome.targetContents (cp src wc req) = some src)) := by
  have hdiv : src.length / wc = 0 ↔ src.length < wc :=
    Nat.div_eq_zero_iff (by omega)
  constructor
  · simp only [effectiveBufferSize, totalBytesPerThread]
    revert hdiv
    generalize src.length / wc = d
    intro hdiv
    omega
  · intro h0
    have h : ¬ wc = 0 := by omega
    have hcp : cp src wc req = CpOutcome.ok [] (List.replicate wc []) := by
      simp only [cp, cpE, if_neg h, h0]
      rw [runWorkers_buf_zero src noErr2 noErr2 (ranges src.length wc) 0 []]
      have hlen : (ranges src.length wc).length = wc := by
        simp [ranges]
      rw [hlen]
    refine ⟨hcp, ?_⟩
    intro hne hcontra
    rw [hcp] at hcontra
    simp only [CpOutcome.targetContents, Option.some_inj] at hcontra
    exact hne hcontra.symm

/-- Witness for `zero_effective_buffer`: a 3-byte source copied with 4
workers gives per-worker byte count 0, so nothing is copied. -/
theorem zero_effective_buffer_witness :
    effectiveBufferSize 5 (List.length [1, 2, 3]) 4 = 0 ∧
    cp [1, 2, 3] 4 5 = CpOutcome.ok [] (List.replicate 4 []) :=
  ⟨by decide, ((zero_effective_buffer [1, 2, 3] 4 5 (by decide)).2 (by decide)).1⟩

end Cp
